import Mathlib

/-!
Verification development for the sparkmap repository.

The repository's decision logic is built from a handful of pandas idioms:

* `pd.to_numeric(col, errors='coerce')` — non-numeric values become NaN.
  We model a coerced numeric cell as `Option Int`, with `none` standing
  for NaN (a missing / non-numeric value).
* `df.sort_values(col, ascending=False)` — descending sort, NaN placed
  last (`na_position='last'`). The scripts use the default
  `kind='quicksort'`, which is NOT stable, so the order of rows with equal
  keys is unspecified. The sort's contract is `IsSortValuesDesc`: the
  output is some permutation of the input that is weakly descending under
  the total preorder `kge` in which `none` is strictly below every numeric
  value (this also places the NaN rows last). Theorems whose truth depends
  on how tied keys are ordered quantify over every output satisfying the
  contract; where tie order is irrelevant we compute with `sortDesc`, one
  particular admissible output (a deterministic refinement, convenient for
  concrete evaluation — not a claim that the program's sort is stable).
* `df.groupby(k).first()` — one output row per key; each column takes
  the first non-null value of the group in frame order.
* row iteration with conditional cell assignment (`apply_crosswalk.py`),
  a left spatial join with keep-first deduplication
  (`augment_pois_with_county.py`), and a per-file try/except loop.
-/

namespace SparkMap

/-- Descending-key comparison on coerced numeric cells: `kge a b` holds when
`a` sorts no later than `b` in a descending sort with NaN (`none`) last.
`none` ties with `none` and loses to every numeric value. -/
def kge : Option Int → Option Int → Bool
  | _, none => true
  | none, some _ => false
  | some x, some y => decide (y ≤ x)

/-- Insertion of `a` into a descending-sorted list: `a` is placed before
the first element whose key it ties or beats. -/
def insertDesc (key : α → Option Int) (a : α) : List α → List α
  | [] => [a]
  | b :: l => if kge (key a) (key b) then a :: b :: l else b :: insertDesc key a l

/-- One particular admissible output of
`df.sort_values(col, ascending=False)` (valid values descending, NaN rows
last), used as a pinned deterministic refinement wherever a theorem does
not depend on how the program's unstable default quicksort orders tied
keys. Nothing proved about the program may rely on where this refinement
happens to place tied keys; tie-sensitive statements quantify over
`IsSortValuesDesc` instead. -/
def sortDesc (key : α → Option Int) : List α → List α
  | [] => []
  | a :: l => insertDesc key a (sortDesc key l)

/-- First element of the list attaining the maximal key (under `kge`,
so any numeric key beats `none`): the element `sortDesc` places first. -/
def pickMax (key : α → Option Int) : List α → Option α
  | [] => none
  | a :: l =>
    match pickMax key l with
    | none => some a
    | some b => if kge (key a) (key b) then some a else some b

/-- Contract of `df.sort_values(col, ascending=False)` with the scripts'
default `kind='quicksort'`: the output is some permutation of the input
that is weakly descending on the coerced key, with NaN (`none`) rows last —
both encoded by `kge`'s ordering. The default kind is documented unstable,
so the contract says nothing about how rows with equal keys are ordered;
every list satisfying it is a possible result of the program's sort. -/
def IsSortValuesDesc (key : α → Option Int) (l out : List α) : Prop :=
  out.Perm l ∧ out.Pairwise (fun a b => kge (key a) (key b) = true)

theorem kge_refl (a : Option Int) : kge a a = true := by
  cases a with
  | none => rfl
  | some x => simp [kge]

theorem kge_total (a b : Option Int) : kge a b = true ∨ kge b a = true := by
  cases a <;> cases b <;> simp [kge] <;> omega

theorem kge_false {a b : Option Int} (h : kge a b = false) : kge b a = true := by
  rcases kge_total a b with h1 | h1
  · rw [h1] at h; cases h
  · exact h1

theorem kge_trans {a b c : Option Int} (h1 : kge a b = true) (h2 : kge b c = true) :
    kge a c = true := by
  cases a <;> cases b <;> cases c <;> simp [kge] at * <;> omega

theorem mem_insertDesc {key : α → Option Int} {a x : α} {l : List α}
    (h : x ∈ insertDesc key a l) : x = a ∨ x ∈ l := by
  induction l with
  | nil => simpa [insertDesc] using h
  | cons b t ih =>
    rw [insertDesc] at h
    by_cases hk : kge (key a) (key b) = true
    · rw [if_pos hk] at h
      rcases List.mem_cons.mp h with h | h
      · exact Or.inl h
      · exact Or.inr h
    · rw [if_neg hk] at h
      rcases List.mem_cons.mp h with h | h
      · exact Or.inr (List.mem_cons.mpr (Or.inl h))
      · rcases ih h with h | h
        · exact Or.inl h
        · exact Or.inr (List.mem_cons.mpr (Or.inr h))

theorem insertDesc_sorted {key : α → Option Int} (a : α) {l : List α}
    (h : l.Pairwise (fun x y => kge (key x) (key y) = true)) :
    (insertDesc key a l).Pairwise (fun x y => kge (key x) (key y) = true) := by
  induction l with
  | nil => simp [insertDesc]
  | cons b t ih =>
    rw [List.pairwise_cons] at h
    rw [insertDesc]
    by_cases hk : kge (key a) (key b) = true
    · rw [if_pos hk]
      refine List.pairwise_cons.mpr ⟨?_, List.pairwise_cons.mpr h⟩
      intro x hx
      rcases List.mem_cons.mp hx with hx | hx
      · subst hx; exact hk
      · exact kge_trans hk (h.1 x hx)
    · rw [if_neg hk]
      refine List.pairwise_cons.mpr ⟨?_, ih h.2⟩
      intro x hx
      rcases mem_insertDesc hx with hx | hx
      · subst hx
        exact kge_false (Bool.eq_false_iff.mpr hk)
      · exact h.1 x hx

theorem sortDesc_sorted (key : α → Option Int) (l : List α) :
    (sortDesc key l).Pairwise (fun x y => kge (key x) (key y) = true) := by
  induction l with
  | nil => simp [sortDesc]
  | cons a t ih => exact insertDesc_sorted a ih

theorem insertDesc_ne_nil {key : α → Option Int} (a : α) (l : List α) :
    insertDesc key a l ≠ [] := by
  cases l with
  | nil => simp [insertDesc]
  | cons b t =>
    rw [insertDesc]
    by_cases hk : kge (key a) (key b) = true
    · rw [if_pos hk]; simp
    · rw [if_neg hk]; simp

theorem sortDesc_eq_nil {key : α → Option Int} {l : List α} :
    sortDesc key l = [] ↔ l = [] := by
  cases l with
  | nil => simp [sortDesc]
  | cons a t =>
    simp only [sortDesc]
    exact ⟨fun h => absurd h (insertDesc_ne_nil a _), fun h => by cases h⟩

theorem pickMax_eq_none {key : α → Option Int} {l : List α} :
    pickMax key l = none ↔ l = [] := by
  cases l with
  | nil => simp [pickMax]
  | cons a t =>
    constructor
    · intro h
      cases hp : pickMax key t with
      | none =>
        simp only [pickMax, hp] at h
        exact Option.noConfusion h
      | some b =>
        simp only [pickMax, hp] at h
        by_cases hk : kge (key a) (key b) = true
        · rw [if_pos hk] at h; exact Option.noConfusion h
        · rw [if_neg hk] at h; exact Option.noConfusion h
    · intro h; cases h

theorem head?_insertDesc (key : α → Option Int) (a : α) (l : List α) :
    (insertDesc key a l).head? =
      some (match l.head? with
            | none => a
            | some b => if kge (key a) (key b) then a else b) := by
  cases l with
  | nil => rfl
  | cons b t =>
    rw [insertDesc]
    by_cases hk : kge (key a) (key b) = true
    · rw [if_pos hk]; simp [hk]
    · rw [if_neg hk]; simp [hk]

theorem head?_sortDesc (key : α → Option Int) (l : List α) :
    (sortDesc key l).head? = pickMax key l := by
  induction l with
  | nil => rfl
  | cons a t ih =>
    rw [sortDesc, head?_insertDesc]
    cases hp : pickMax key t with
    | none =>
      have ht : sortDesc key t = [] := sortDesc_eq_nil.mpr (pickMax_eq_none.mp hp)
      simp only [pickMax, hp, ht, List.head?_nil]
    | some b =>
      have hh : (sortDesc key t).head? = some b := by rw [ih, hp]
      simp only [pickMax, hp, hh]
      by_cases hk : kge (key a) (key b) = true
      · rw [if_pos hk, if_pos hk]
      · rw [if_neg hk, if_neg hk]

theorem pickMax_mem {key : α → Option Int} {l : List α} {a : α}
    (h : pickMax key l = some a) : a ∈ l := by
  induction l with
  | nil => cases h
  | cons c t ih =>
    cases hp : pickMax key t with
    | none =>
      simp only [pickMax, hp] at h
      cases h; simp
    | some b =>
      simp only [pickMax, hp] at h
      by_cases hk : kge (key c) (key b) = true
      · rw [if_pos hk] at h; cases h; simp
      · rw [if_neg hk] at h; cases h
        exact List.mem_cons.mpr (Or.inr (ih hp))

theorem pickMax_isMax {key : α → Option Int} {l : List α} {a : α}
    (h : pickMax key l = some a) : ∀ b ∈ l, kge (key a) (key b) = true := by
  induction l generalizing a with
  | nil => cases h
  | cons c t ih =>
    cases hp : pickMax key t with
    | none =>
      simp only [pickMax, hp] at h
      cases h
      have ht : t = [] := pickMax_eq_none.mp hp
      subst ht
      intro b hb
      rcases List.mem_cons.mp hb with hb | hb
      · subst hb; exact kge_refl _
      · cases hb
    | some m =>
      simp only [pickMax, hp] at h
      by_cases hk : kge (key c) (key m) = true
      · rw [if_pos hk] at h
        injection h with h
        subst h
        intro b hb
        rcases List.mem_cons.mp hb with hb | hb
        · subst hb; exact kge_refl _
        · exact kge_trans hk (ih hp b hb)
      · rw [if_neg hk] at h
        injection h with h
        subst h
        intro b hb
        rcases List.mem_cons.mp hb with hb | hb
        · subst hb
          exact kge_false (Bool.eq_false_iff.mpr hk)
        · exact ih hp b hb

theorem find?_congr_mem {p q : α → Bool} {l : List α}
    (h : ∀ x ∈ l, p x = q x) : l.find? p = l.find? q := by
  induction l with
  | nil => rfl
  | cons a t ih =>
    have ha := h a (List.mem_cons_self a t)
    cases hpa : p a with
    | true =>
      rw [List.find?_cons_of_pos _ hpa, List.find?_cons_of_pos _ (ha ▸ hpa)]
    | false =>
      rw [List.find?_cons_of_neg _ (by simp [hpa]),
          List.find?_cons_of_neg _ (by simp [← ha, hpa])]
      exact ih fun x hx => h x (List.mem_cons.mpr (Or.inr hx))

theorem pickMax_eq_find? (key : α → Option Int) (l : List α) :
    pickMax key l = l.find? (fun x => l.all (fun b => kge (key x) (key b))) := by
  induction l with
  | nil => rfl
  | cons a t ih =>
    cases hp : pickMax key t with
    | none =>
      have ht : t = [] := pickMax_eq_none.mp hp
      subst ht
      simp [pickMax, kge_refl]
    | some b =>
      have hbmem : b ∈ t := pickMax_mem hp
      have hbmax : ∀ c ∈ t, kge (key b) (key c) = true := pickMax_isMax hp
      simp only [pickMax, hp]
      by_cases hk : kge (key a) (key b) = true
      · rw [if_pos hk]
        have hpa : ((a :: t).all (fun c => kge (key a) (key c))) = true := by
          rw [List.all_cons, kge_refl, Bool.true_and, List.all_eq_true]
          intro c hc
          exact kge_trans hk (hbmax c hc)
        rw [List.find?_cons]
        simp only [hpa]
      · rw [if_neg hk]
        have hpa : ((a :: t).all (fun c => kge (key a) (key c))) = false := by
          rw [Bool.eq_false_iff]
          intro hall
          rw [List.all_eq_true] at hall
          exact hk (hall b (List.mem_cons.mpr (Or.inr hbmem)))
        rw [List.find?_cons]
        simp only [hpa]
        rw [ih] at hp
        rw [← hp]
        refine find?_congr_mem ?_
        intro x hx
        cases hxt : (t.all (fun c => kge (key x) (key c))) with
        | true =>
          have hxmax : ∀ c ∈ t, kge (key x) (key c) = true := List.all_eq_true.mp hxt
          have hxa : kge (key x) (key a) = true :=
            kge_trans (hxmax b hbmem) (kge_false (Bool.eq_false_iff.mpr hk))
          simp [List.all_cons, hxa, hxt]
        | false => simp [List.all_cons, hxt]

theorem insertDesc_eq_cons {key : α → Option Int} {a : α} {l : List α}
    (h : ∀ x ∈ l, kge (key a) (key x) = true) : insertDesc key a l = a :: l := by
  cases l with
  | nil => rfl
  | cons b t =>
    rw [insertDesc, if_pos (h b (List.mem_cons_self b t))]

theorem filter_insertDesc (key : α → Option Int) (p : α → Bool) (a : α) {l : List α}
    (hl : l.Pairwise (fun x y => kge (key x) (key y) = true)) :
    (insertDesc key a l).filter p =
      if p a then insertDesc key a (l.filter p) else l.filter p := by
  induction l with
  | nil =>
    cases hpa : p a with
    | true => simp [insertDesc, hpa]
    | false => simp [insertDesc, hpa]
  | cons b t ih =>
    rw [List.pairwise_cons] at hl
    rw [insertDesc]
    by_cases hk : kge (key a) (key b) = true
    · rw [if_pos hk]
      cases hpa : p a with
      | true =>
        cases hpb : p b with
        | true =>
          rw [List.filter_cons_of_pos hpa, List.filter_cons_of_pos hpb,
              if_pos rfl, insertDesc, if_pos hk]
        | false =>
          rw [List.filter_cons_of_pos hpa, List.filter_cons_of_neg (by simp [hpb]),
              if_pos rfl]
          refine (insertDesc_eq_cons ?_).symm
          intro x hx
          rcases List.mem_filter.mp hx with ⟨hxt, _⟩
          exact kge_trans hk (hl.1 x hxt)
      | false =>
        cases hpb : p b with
        | true =>
          rw [List.filter_cons_of_neg (by simp [hpa]), List.filter_cons_of_pos hpb,
              if_neg (by simp)]
        | false =>
          rw [List.filter_cons_of_neg (by simp [hpa]), List.filter_cons_of_neg (by simp [hpb]),
              if_neg (by simp)]
    · rw [if_neg hk]
      cases hpb : p b with
      | true =>
        rw [List.filter_cons_of_pos hpb, ih hl.2, List.filter_cons_of_pos hpb]
        cases hpa : p a with
        | true =>
          rw [if_pos rfl, if_pos rfl, insertDesc, if_neg hk]
        | false =>
          rw [if_neg (by simp), if_neg (by simp)]
      | false =>
        rw [List.filter_cons_of_neg (by simp [hpb]), ih hl.2,
            List.filter_cons_of_neg (by simp [hpb])]

theorem filter_sortDesc (key : α → Option Int) (p : α → Bool) (l : List α) :
    (sortDesc key l).filter p = sortDesc key (l.filter p) := by
  induction l with
  | nil => rfl
  | cons a t ih =>
    rw [sortDesc, filter_insertDesc key p a (sortDesc_sorted key t), ih]
    cases hpa : p a with
    | true =>
      rw [if_pos rfl, List.filter_cons_of_pos hpa, sortDesc]
    | false =>
      rw [if_neg (by simp), List.filter_cons_of_neg (by simp [hpa])]

theorem findSome?_eq_head?_bind (f : α → Option β) (l : List α) :
    l.findSome? f = ((l.filter (fun a => (f a).isSome)).head?).bind f := by
  induction l with
  | nil => rfl
  | cons a t ih =>
    cases hfa : f a with
    | none =>
      rw [List.findSome?_cons, List.filter_cons_of_neg (by simp [hfa]), hfa, ih]
    | some b =>
      rw [List.findSome?_cons, List.filter_cons_of_pos (by simp [hfa]), hfa]
      simp [hfa]

theorem insertDesc_perm (key : α → Option Int) (a : α) (l : List α) :
    (insertDesc key a l).Perm (a :: l) := by
  induction l with
  | nil => exact List.Perm.refl _
  | cons b t ih =>
    rw [insertDesc]
    by_cases hk : kge (key a) (key b) = true
    · rw [if_pos hk]
    · rw [if_neg hk]
      exact (List.Perm.cons b ih).trans (List.Perm.swap a b t)

theorem sortDesc_perm (key : α → Option Int) (l : List α) :
    (sortDesc key l).Perm l := by
  induction l with
  | nil => exact List.Perm.refl _
  | cons a t ih =>
    rw [sortDesc]
    exact (insertDesc_perm key a (sortDesc key t)).trans (List.Perm.cons a ih)

/-- The pinned refinement `sortDesc` satisfies the sort contract, so it can
instantiate contract-quantified theorems in concrete witnesses. -/
theorem sortDesc_isSortValuesDesc (key : α → Option Int) (l : List α) :
    IsSortValuesDesc key l (sortDesc key l) :=
  ⟨sortDesc_perm key l, sortDesc_sorted key l⟩

/-- Under any admissible output of the descending sort, the head of a
filtered slice of the sorted frame is a member of the same slice of the
input that attains the maximal key there (which member it is on ties is
not determined by the contract). -/
theorem head_of_sorted_filter {key : α → Option Int} {l out : List α}
    (hs : IsSortValuesDesc key l out) (p : α → Bool) (h : l.filter p ≠ []) :
    ∃ e, (out.filter p).head? = some e ∧ e ∈ l.filter p
      ∧ ∀ b ∈ l.filter p, kge (key e) (key b) = true := by
  have hperm : (out.filter p).Perm (l.filter p) := hs.1.filter p
  have hsorted : (out.filter p).Pairwise (fun a b => kge (key a) (key b) = true) :=
    List.Pairwise.sublist (List.filter_sublist out) hs.2
  cases hof : out.filter p with
  | nil =>
    rw [hof] at hperm
    exact absurd hperm.symm.eq_nil h
  | cons e rest =>
    rw [hof] at hperm hsorted
    refine ⟨e, rfl, hperm.mem_iff.mp (List.mem_cons_self e rest), ?_⟩
    intro b hb
    have hbout : b ∈ e :: rest := hperm.mem_iff.mpr hb
    rcases List.mem_cons.mp hbout with hb1 | hb1
    · rw [hb1]; exact kge_refl _
    · exact (List.pairwise_cons.mp hsorted).1 b hb1

/-- Under any admissible output of the descending sort, `findSome?` over a
filtered slice of the sorted frame returns `none` when no element of the
slice has a value, and otherwise the value of an element with maximal key
among the slice's elements that have one (which such element on key ties is
not determined by the contract). -/
theorem findSome?_sorted_filter {key : α → Option Int} {l out : List α}
    (hs : IsSortValuesDesc key l out) (p : α → Bool) (f : α → Option β) :
    ((l.filter p).filter (fun a => (f a).isSome) = [] →
      (out.filter p).findSome? f = none)
    ∧ ((l.filter p).filter (fun a => (f a).isSome) ≠ [] →
      ∃ e, e ∈ (l.filter p).filter (fun a => (f a).isSome)
        ∧ (∀ b ∈ (l.filter p).filter (fun a => (f a).isSome),
            kge (key e) (key b) = true)
        ∧ (out.filter p).findSome? f = f e) := by
  have hq : ∀ m : List α, (m.filter p).filter (fun a => (f a).isSome)
      = m.filter (fun a => (f a).isSome && p a) := by
    intro m
    rw [List.filter_filter]
  constructor
  · intro hnil
    rw [hq] at hnil
    have hperm := hs.1.filter (fun a => (f a).isSome && p a)
    rw [hnil] at hperm
    have hsf := hperm.eq_nil
    rw [List.findSome?_eq_none_iff]
    intro x hx
    cases hvx : f x with
    | none => rfl
    | some w =>
      have hxmem : x ∈ out.filter (fun a => (f a).isSome && p a) := by
        rcases List.mem_filter.mp hx with ⟨hxo, hxp⟩
        refine List.mem_filter.mpr ⟨hxo, ?_⟩
        simp [hxp, hvx]
      rw [hsf] at hxmem
      cases hxmem
  · intro hne
    rw [hq] at hne
    rcases head_of_sorted_filter hs (fun a => (f a).isSome && p a) hne with
      ⟨e, hh, hemem, hemax⟩
    refine ⟨e, ?_, ?_, ?_⟩
    · rw [hq]; exact hemem
    · intro b hb
      rw [hq] at hb
      exact hemax b hb
    · rw [findSome?_eq_head?_bind, hq, hh]
      rfl

/-- One row of the tract relationship file as `apply_crosswalk.py` reads it
(`sep='|'`, `dtype=str`). `arealand_part` holds the `AREALAND_PART` value
after `pd.to_numeric(..., errors='coerce')`: `none` is NaN, i.e. a missing
or non-numeric overlap weight; the coercion never raises. The GEOID columns
are string-typed and non-null in this file. -/
structure XwalkRow where
  geoid_tract_20 : String
  geoid_tract_10 : String
  arealand_part : Option Int
  deriving DecidableEq

/-- Model of Python's `str.startswith(pre)`: the characters of `pre` head
the characters of `s`. -/
def strBegins (pre s : String) : Bool := pre.data.isPrefixOf s.data

/-- `crosswalk[crosswalk['GEOID_TRACT_20'].str.startswith('24')]`:
the jurisdiction (Maryland) filter. -/
def md_xwalk (crosswalk : List XwalkRow) : List XwalkRow :=
  crosswalk.filter (fun r => strBegins "24" r.geoid_tract_20)

/-- The frame `md_xwalk.sort_values('AREALAND_PART', ascending=False)`,
as the pinned `sortDesc` refinement of the sort contract: valid weights
descending, NaN weights last; the program's unstable default sort kind
determines no particular order among tied weights, so tie-sensitive
statements quantify over `IsSortValuesDesc` rather than use this frame. -/
def xwalkSorted (crosswalk : List XwalkRow) : List XwalkRow :=
  sortDesc (fun r => r.arealand_part) (md_xwalk crosswalk)

/-- The rows `groupby('GEOID_TRACT_20')` collects for key `g`, in
sorted-frame order. -/
def xwalkGroup (crosswalk : List XwalkRow) (g : String) : List XwalkRow :=
  (xwalkSorted crosswalk).filter (fun r => r.geoid_tract_20 == g)

/-- The row `.first()` keeps for key `g`: `GroupBy.first` takes each
column's first non-null value in group order, and `GEOID_TRACT_10` is a
never-null string column, so the selected row is the group's head. -/
def bestEntry (crosswalk : List XwalkRow) (g : String) : Option XwalkRow :=
  (xwalkGroup crosswalk g).head?

/-- The `best_match` table of `apply_crosswalk.py` (lines 38-44) as a lookup:
the `GEOID_TRACT_10` mapped to 2020 tract `g`, defined exactly for the `g`
present in the filtered relationship table (computed over the pinned
`xwalkSorted` frame). -/
def best_match (crosswalk : List XwalkRow) (g : String) : Option String :=
  (bestEntry crosswalk g).map (fun r => r.geoid_tract_10)

/-- The row `.first()` keeps for key `g` over an arbitrary sorted frame
`sorted` — used to state what `best_match` guarantees under every order the
program's unstable sort may produce. -/
def bestEntryOf (sorted : List XwalkRow) (g : String) : Option XwalkRow :=
  (sorted.filter (fun r => r.geoid_tract_20 == g)).head?

/-- The `best_match` lookup over an arbitrary sorted frame. The pinned
`best_match crosswalk` is `best_matchOf (xwalkSorted crosswalk)`. -/
def best_matchOf (sorted : List XwalkRow) (g : String) : Option String :=
  (bestEntryOf sorted g).map (fun r => r.geoid_tract_10)

theorem bestEntry_eq_pickMax (crosswalk : List XwalkRow) (g : String) :
    bestEntry crosswalk g =
      pickMax (fun r => r.arealand_part)
        ((md_xwalk crosswalk).filter (fun r => r.geoid_tract_20 == g)) := by
  rw [bestEntry, xwalkGroup, xwalkSorted,
      filter_sortDesc (fun r => r.arealand_part) (fun r => r.geoid_tract_20 == g)
        (md_xwalk crosswalk),
      head?_sortDesc]

/-- First entry of a 2020 tract's group whose weight is maximal: one
relationship entry with weight 900. -/
def xwalkTieE1 : XwalkRow := ⟨"24007000100", "24007000100A", some 900⟩

/-- A second entry for the same 2020 tract, tied at weight 900 but with a
different 2010 parent. -/
def xwalkTieE2 : XwalkRow := ⟨"24007000100", "24007000100B", some 900⟩

/-- Relationship table with two entries tied at the maximal weight. -/
def xwalkTie : List XwalkRow := [xwalkTieE1, xwalkTieE2]

/-- C1 counterexample: on `xwalkTie` the first entry in input order with
maximal weight is `xwalkTieE1` (parent ...A), yet the order
`[xwalkTieE2, xwalkTieE1]` satisfies the contract of
`sort_values('AREALAND_PART', ascending=False)` with the program's default
unstable `kind='quicksort'`, and under that admissible order the crosswalk
maps the tract to parent ...B — so the claim's tie clause (first such entry
in input order) is not guaranteed by the program. -/
theorem crosswalk_tie_order_cex :
    IsSortValuesDesc (fun r => r.arealand_part) (md_xwalk xwalkTie)
      [xwalkTieE2, xwalkTieE1]
    ∧ (md_xwalk xwalkTie).find?
        (fun x => (md_xwalk xwalkTie).all
          (fun b => kge x.arealand_part b.arealand_part)) = some xwalkTieE1
    ∧ best_matchOf [xwalkTieE2, xwalkTieE1] "24007000100" = some "24007000100B"
    ∧ ("24007000100B" : String) ≠ "24007000100A" :=
  ⟨⟨List.Perm.swap xwalkTieE1 xwalkTieE2 [], by decide⟩, by decide, rfl, by decide⟩

/-- C1 amended: every `new_id` (2020 GEOID) occurring in the
jurisdiction-filtered relationship entries is assigned exactly one `old_id`
by the crosswalk mapping, namely the `GEOID_TRACT_10` of an entry whose
coerced `AREALAND_PART` weight is maximal for that `new_id` (`kge` ranks
every numeric weight above a non-numeric one) — and this holds under every
order the program's unstable sort may produce; when several entries tie at
the maximum, which of them supplies the `old_id` is unspecified. -/
theorem crosswalk_best_match_amended (crosswalk : List XwalkRow) (g : String)
    (sorted : List XwalkRow)
    (hs : IsSortValuesDesc (fun r => r.arealand_part) (md_xwalk crosswalk) sorted)
    (h : (md_xwalk crosswalk).filter (fun r => r.geoid_tract_20 == g) ≠ []) :
    ∃ e, e ∈ (md_xwalk crosswalk).filter (fun r => r.geoid_tract_20 == g)
      ∧ (∀ b ∈ (md_xwalk crosswalk).filter (fun r => r.geoid_tract_20 == g),
          kge e.arealand_part b.arealand_part = true)
      ∧ best_matchOf sorted g = some e.geoid_tract_10 := by
  rcases head_of_sorted_filter hs (fun r => r.geoid_tract_20 == g) h with
    ⟨e, hh, hmem, hmax⟩
  exact ⟨e, hmem, hmax, by simp [best_matchOf, bestEntryOf, hh]⟩

/-- Scenario-A relationship table: two entries for one 2020 tract with
weights 900 and 100. -/
def xwalkScenA : List XwalkRow :=
  [⟨"24001000100", "24001000100A", some 900⟩,
   ⟨"24001000100", "24001000100B", some 100⟩]

theorem crosswalk_best_match_amended_witness :
    ∃ e, e ∈ (md_xwalk xwalkScenA).filter (fun r => r.geoid_tract_20 == "24001000100")
      ∧ (∀ b ∈ (md_xwalk xwalkScenA).filter (fun r => r.geoid_tract_20 == "24001000100"),
          kge e.arealand_part b.arealand_part = true)
      ∧ best_matchOf (xwalkSorted xwalkScenA) "24001000100" = some e.geoid_tract_10 :=
  crosswalk_best_match_amended xwalkScenA "24001000100" (xwalkSorted xwalkScenA)
    (sortDesc_isSortValuesDesc (fun r => r.arealand_part) (md_xwalk xwalkScenA))
    (by decide)

/-- C7: resolution of the crosswalk is a total function even in the presence
of malformed (non-numeric, coerced to `none`) weights — the embedding never
raises by construction, mirroring `errors='coerce'` — and whenever at least
one entry of a `new_id`'s filtered group has a valid numeric weight, the
entry selected as best match itself has a numeric weight; hence an entry
whose weight failed coercion is never selected in that situation, because
coerced weights sort below all valid weights. -/
theorem crosswalk_invalid_weight_never_selected (crosswalk : List XwalkRow) (g : String)
    (e' : XwalkRow)
    (he' : e' ∈ (md_xwalk crosswalk).filter (fun r => r.geoid_tract_20 == g))
    (w : Int) (hw : e'.arealand_part = some w) :
    ∃ b w', bestEntry crosswalk g = some b ∧ b.arealand_part = some w' := by
  cases hb : pickMax (fun r => r.arealand_part)
      ((md_xwalk crosswalk).filter (fun r => r.geoid_tract_20 == g)) with
  | none =>
    rw [pickMax_eq_none] at hb
    rw [hb] at he'
    cases he'
  | some b =>
    have hmax := pickMax_isMax hb e' he'
    cases hbw : b.arealand_part with
    | none =>
      rw [hbw, hw] at hmax
      simp [kge] at hmax
    | some w' =>
      exact ⟨b, w', by rw [bestEntry_eq_pickMax]; exact hb, hbw⟩

/-- Relationship table with a malformed weight next to a valid one. -/
def xwalkBadWeight : List XwalkRow :=
  [⟨"24003000200", "24003000200X", none⟩,
   ⟨"24003000200", "24003000200Y", some 5⟩]

theorem crosswalk_invalid_weight_never_selected_witness :
    ∃ b w', bestEntry xwalkBadWeight "24003000200" = some b ∧ b.arealand_part = some w' :=
  crosswalk_invalid_weight_never_selected xwalkBadWeight "24003000200"
    ⟨"24003000200", "24003000200Y", some 5⟩ (by decide) 5 rfl

/-- One row of the synthesized metric series (`spark_map_synthesized.csv`)
as `apply_crosswalk.py` (lines 55-63) and `prepare_mapbox_data.py`
(lines 43-52) read it. `year` holds the value after
`pd.to_numeric(..., errors='coerce')` (`none` = NaN / non-numeric).
`vals` gives each metric column's value (`none` = NaN / absent). -/
structure SynthRow where
  geoid : String
  state_name : String
  year : Option Int
  vals : String → Option Int

/-- `synth[synth['state_name'] == 'Maryland']`. -/
def md_synth (synth : List SynthRow) : List SynthRow :=
  synth.filter (fun r => r.state_name == "Maryland")

/-- The frame `md_synth.sort_values('year', ascending=False)`, as the
pinned `sortDesc` refinement of the sort contract (descending years, NaN
last; the program's unstable default sort kind determines no particular
order among tied years, so tie-sensitive statements quantify over
`IsSortValuesDesc` rather than use this frame). -/
def synthSorted (synth : List SynthRow) : List SynthRow :=
  sortDesc (fun r => r.year) (md_synth synth)

/-- The rows `groupby('GEOID')` collects for key `g`, in sorted order. -/
def synthGroup (synth : List SynthRow) (g : String) : List SynthRow :=
  (synthSorted synth).filter (fun r => r.geoid == g)

/-- `md_latest`'s value in metric column `c` for tract `g`:
`GroupBy.first` takes each column's first non-null value in
descending-year group order. -/
def md_latest_val (synth : List SynthRow) (g c : String) : Option Int :=
  (synthGroup synth g).findSome? (fun r => r.vals c)

/-- The distinct tract ids of the filtered series: the index of `md_latest`
(`groupby` emits one row per distinct key). -/
def md_latest_keys (synth : List SynthRow) : List String :=
  ((md_synth synth).map (fun r => r.geoid)).dedup

/-- The `md_latest` frame of `apply_crosswalk.py` line 63 /
`prepare_mapbox_data.py` line 52: one row per distinct tract id, each
metric column resolved by `md_latest_val`. -/
def md_latest (synth : List SynthRow) : List (String × (String → Option Int)) :=
  (md_latest_keys synth).map (fun g => (g, fun c => md_latest_val synth g c))

/-- The collapsed row as the spec's words describe it: the single input
record with the numerically largest period (year) for the unit, non-numeric
periods never outranking numeric ones, ties resolved to the first such
record in input order. Named from the spec for comparison with the code's
`md_latest_val`. -/
def specLatestRecord (synth : List SynthRow) (g : String) : Option SynthRow :=
  pickMax (fun r => r.year) ((md_synth synth).filter (fun r => r.geoid == g))

theorem synthGroup_eq_sortDesc (synth : List SynthRow) (g : String) :
    synthGroup synth g =
      sortDesc (fun r => r.year) ((md_synth synth).filter (fun r => r.geoid == g)) := by
  rw [synthGroup, synthSorted,
      filter_sortDesc (fun r => r.year) (fun r => r.geoid == g) (md_synth synth)]

/-- Maryland record for tract 24001000100, year 2018: `val` is null,
`other` is 7. -/
def synthCexR1 : SynthRow :=
  ⟨"24001000100", "Maryland", some 2018, fun c => if c == "other" then some 7 else none⟩

/-- Maryland record for the same tract, year 2015: `val` is 5. -/
def synthCexR2 : SynthRow :=
  ⟨"24001000100", "Maryland", some 2015, fun c => if c == "val" then some 5 else none⟩

/-- A two-record series for one unit whose latest record has a null metric. -/
def synthCex : List SynthRow := [synthCexR1, synthCexR2]

/-- C2 counterexample: in `synthCex` the record with the numerically largest
period is the 2018 record and its `val` field is null, yet the collapsed
row's `val` is 5, taken from the 2015 record — so the collapsed row does not
equal, field-for-field, the single input record with the largest period. -/
theorem collapse_not_single_record :
    specLatestRecord synthCex "24001000100" = some synthCexR1
    ∧ synthCexR1.vals "val" = none
    ∧ md_latest_val synthCex "24001000100" "val" = some 5
    ∧ md_latest_val synthCex "24001000100" "val" ≠ synthCexR1.vals "val" := by
  refine ⟨rfl, rfl, rfl, by decide⟩

/-- C2 amended: the collapsed table has exactly one row for every unit id
present in the region-filtered metric series, and on every metric field
where the unit's strictly-latest record — a record whose coerced year
strictly beats every other record of the unit's group, non-numeric periods
never outranking numeric ones — is non-null, the collapsed row equals that
record's value under every order the program's unstable sort may produce.
A field null in the latest record is instead filled per column from an
older record (see C10), and when several records tie at the maximal year
the supplier of a field is unspecified; these are the divergences from the
original claim. -/
theorem collapse_latest_amended (synth : List SynthRow) (g : String) :
    (g ∈ (md_synth synth).map (fun r => r.geoid) →
      (md_latest synth).countP (fun pr => pr.1 == g) = 1)
    ∧ (∀ sorted, IsSortValuesDesc (fun r => r.year) (md_synth synth) sorted →
        ∀ r, r ∈ (md_synth synth).filter (fun x => x.geoid == g) →
        (∀ b ∈ (md_synth synth).filter (fun x => x.geoid == g),
            b = r ∨ kge b.year r.year = false) →
        ∀ c v, r.vals c = some v →
          (sorted.filter (fun x => x.geoid == g)).findSome? (fun x => x.vals c)
            = some v) := by
  constructor
  · intro hg
    rw [md_latest, List.countP_map]
    have h1 : (md_latest_keys synth).count g = 1 :=
      List.count_eq_one_of_mem (List.nodup_dedup _) (List.mem_dedup.mpr hg)
    rw [List.count_eq_countP] at h1
    exact h1
  · intro sorted hs r hmem hstrict c v hv
    have hne : (md_synth synth).filter (fun x => x.geoid == g) ≠ [] := by
      intro h0
      rw [h0] at hmem
      cases hmem
    rcases head_of_sorted_filter hs (fun x => x.geoid == g) hne with
      ⟨e, hh, hemem, hemax⟩
    have her : e = r := by
      rcases hstrict e hemem with h1 | h1
      · exact h1
      · exact absurd (hemax r hmem) (by simp [h1])
    cases hsf : sorted.filter (fun x => x.geoid == g) with
    | nil => rw [hsf] at hh; cases hh
    | cons e0 rest =>
      rw [hsf] at hh
      injection hh with hh0
      rw [List.findSome?_cons]
      simp [hh0, her, hv]

theorem collapse_latest_amended_witness :
    (md_latest synthCex).countP (fun pr => pr.1 == "24001000100") = 1
    ∧ ((synthSorted synthCex).filter (fun x => x.geoid == "24001000100")).findSome?
        (fun x => x.vals "other") = some 7 :=
  ⟨(collapse_latest_amended synthCex "24001000100").1 (by decide),
   (collapse_latest_amended synthCex "24001000100").2 (synthSorted synthCex)
     (sortDesc_isSortValuesDesc (fun r => r.year) (md_synth synthCex))
     synthCexR1
     (List.mem_cons_self synthCexR1 [synthCexR2])
     (by
       intro b hb
       have hgrp : (md_synth synthCex).filter (fun x => x.geoid == "24001000100")
           = [synthCexR1, synthCexR2] := rfl
       rw [hgrp] at hb
       rcases List.mem_cons.mp hb with h1 | h1
       · exact Or.inl h1
       · rw [List.mem_singleton.mp h1]
         exact Or.inr rfl)
     "other" 7 rfl⟩

/-- Maryland record for tract 24005000100, year 2018: a=1, b null. -/
def synthCombR1 : SynthRow :=
  ⟨"24005000100", "Maryland", some 2018, fun c => if c == "a" then some 1 else none⟩

/-- Maryland record for the same tract, year 2015: a=9, b=2. -/
def synthCombR2 : SynthRow :=
  ⟨"24005000100", "Maryland", some 2015,
   fun c => if c == "a" then some 9 else if c == "b" then some 2 else none⟩

/-- Series whose collapsed row mixes two periods. -/
def synthComb : List SynthRow := [synthCombR1, synthCombR2]

/-- C10: each metric column of the collapsed row is resolved independently
to its first non-null value in descending-period order: under every order
the program's unstable sort may produce, the collapsed value of column `c`
is null when no record of the unit has `c` non-null, and otherwise is the
value of a record attaining the maximal year among the unit's records with
`c` non-null (nulls skipped per column; which record supplies it on year
ties is unspecified). Hence a collapsed row can combine values drawn from
different periods of the same unit, as `synthComb` shows: the 2018 record
has a=1 and b null, the 2015 record has a=9 and b=2, and the collapsed row
has a=1 and b=2 — a copy of neither input record. -/
theorem collapse_per_column (synth : List SynthRow) (g c : String)
    (sorted : List SynthRow)
    (hs : IsSortValuesDesc (fun r => r.year) (md_synth synth) sorted) :
    ((((md_synth synth).filter (fun x => x.geoid == g)).filter
        (fun x => (x.vals c).isSome)) = [] →
      (sorted.filter (fun x => x.geoid == g)).findSome? (fun x => x.vals c) = none)
    ∧ ((((md_synth synth).filter (fun x => x.geoid == g)).filter
        (fun x => (x.vals c).isSome)) ≠ [] →
      ∃ r, r ∈ (((md_synth synth).filter (fun x => x.geoid == g)).filter
              (fun x => (x.vals c).isSome))
        ∧ (∀ b ∈ (((md_synth synth).filter (fun x => x.geoid == g)).filter
              (fun x => (x.vals c).isSome)), kge r.year b.year = true)
        ∧ (sorted.filter (fun x => x.geoid == g)).findSome? (fun x => x.vals c)
            = r.vals c)
    ∧ (md_latest_val synthComb "24005000100" "a" = some 1
       ∧ md_latest_val synthComb "24005000100" "b" = some 2
       ∧ synthCombR1.vals "b" = none ∧ synthCombR2.vals "a" = some 9) := by
  refine ⟨?_, ?_, rfl, rfl, rfl, rfl⟩
  · exact (findSome?_sorted_filter hs (fun x => x.geoid == g) (fun x => x.vals c)).1
  · exact (findSome?_sorted_filter hs (fun x => x.geoid == g) (fun x => x.vals c)).2

theorem collapse_per_column_witness :
    ((synthSorted synthComb).filter (fun x => x.geoid == "24005000100")).findSome?
        (fun x => x.vals "zz") = none
    ∧ ∃ r, r ∈ (((md_synth synthComb).filter (fun x => x.geoid == "24005000100")).filter
            (fun x => (x.vals "b").isSome))
        ∧ (∀ b ∈ (((md_synth synthComb).filter (fun x => x.geoid == "24005000100")).filter
            (fun x => (x.vals "b").isSome)), kge r.year b.year = true)
        ∧ ((synthSorted synthComb).filter (fun x => x.geoid == "24005000100")).findSome?
            (fun x => x.vals "b") = r.vals "b" :=
  ⟨(collapse_per_column synthComb "24005000100" "zz" (synthSorted synthComb)
      (sortDesc_isSortValuesDesc (fun r => r.year) (md_synth synthComb))).1 rfl,
   (collapse_per_column synthComb "24005000100" "b" (synthSorted synthComb)
      (sortDesc_isSortValuesDesc (fun r => r.year) (md_synth synthComb))).2.1
     (List.cons_ne_nil synthCombR2 [])⟩

/-- The designated primary metric checked by `apply_crosswalk.py` line 102. -/
def primaryCol : String := "kfr_pooled_pooled_mean"

/-- `score_cols` (line 97): every `md_latest` column except the identity,
period and region columns. -/
def score_cols (synthCols : List String) : List String :=
  synthCols.filter (fun c => !(["GEOID", "year", "state_name"].contains c))

/-- One feature of the 2020 boundary GeoJSON; geometry is irrelevant to the
claims, `vals` gives the metric columns (`none` = NaN / absent). -/
structure GdfRow where
  geoid : String
  vals : String → Option Int

/-- The transient `GEOID_2010` value the left merge (lines 87-91) attaches
to a boundary row: the `best_match` lookup at the row's GEOID (`best_match`
has one row per 2020 GEOID — it is a `groupby` result — so the left merge
neither duplicates rows nor leaves several candidates; an unmatched row
gets NaN, modelled `none`). -/
def geoid_2010 (crosswalk : List XwalkRow) (r : GdfRow) : Option String :=
  best_match crosswalk r.geoid

/-- The index of `synth_2010 = md_latest.set_index('GEOID')` (line 94). -/
def synthIndex (synth : List SynthRow) : List String := md_latest_keys synth

/-- One iteration of the fill loop (lines 100-110) on row `r`: when the
primary metric is NaN and the row's `GEOID_2010` is a key of `synth_2010`,
every score column also present in the boundary frame is overwritten with
the parent's collapsed value (the source's remaining guard,
`col in parent_data.index`, always holds because `score_cols` is carved out
of `md_latest`'s own columns); the Boolean records `filled_count += 1`.
Python's `if geoid_2010 and geoid_2010 in synth_2010.index` is a truthiness
test: a NaN merge result is truthy but never a member of the string index,
so the guard is equivalent to the membership test modelled here. -/
def fillRow (crosswalk : List XwalkRow) (synth : List SynthRow)
    (gdfCols synthCols : List String) (r : GdfRow) : GdfRow × Bool :=
  if (r.vals primaryCol).isNone then
    match geoid_2010 crosswalk r with
    | some p =>
      if (synthIndex synth).contains p then
        (⟨r.geoid, fun c =>
            if (score_cols synthCols).contains c && gdfCols.contains c then
              md_latest_val synth p c
            else r.vals c⟩, true)
      else (r, false)
    | none => (r, false)
  else (r, false)

/-- The boundary rows after the fill loop of Step 4. -/
def imputed (crosswalk : List XwalkRow) (synth : List SynthRow)
    (gdfCols synthCols : List String) (gdf : List GdfRow) : List GdfRow :=
  gdf.map (fun r => (fillRow crosswalk synth gdfCols synthCols r).1)

/-- `filled_count` after the loop (lines 99-110). -/
def filled_count (crosswalk : List XwalkRow) (synth : List SynthRow)
    (gdfCols synthCols : List String) (gdf : List GdfRow) : Nat :=
  gdf.countP (fun r => (fillRow crosswalk synth gdfCols synthCols r).2)

/-- `gdf['kfr_pooled_pooled_mean'].isna().sum()` (lines 75 and 115). -/
def missingCount (gdf : List GdfRow) : Nat :=
  gdf.countP (fun r => (r.vals primaryCol).isNone)

theorem fillRow_of_present {crosswalk : List XwalkRow} {synth : List SynthRow}
    {gdfCols synthCols : List String} {r : GdfRow}
    (hm : (r.vals primaryCol).isSome = true) :
    fillRow crosswalk synth gdfCols synthCols r = (r, false) := by
  rcases Option.isSome_iff_exists.mp hm with ⟨v, hv⟩
  simp [fillRow, hv]

/-- C3: imputation is all-or-nothing per unit. A row whose primary metric is
present is returned entirely unchanged and not counted as filled; a row
whose primary metric is absent and whose crosswalk-resolved parent has a
collapsed-metrics row gets every eligible metric column (score column also
present in the boundary frame) overwritten with its parent's collapsed
value, so the filled row's eligible metrics equal the parent's collapsed
metrics field-for-field. -/
theorem impute_all_or_nothing (crosswalk : List XwalkRow) (synth : List SynthRow)
    (gdfCols synthCols : List String) (r : GdfRow) :
    ((r.vals primaryCol).isSome = true →
      fillRow crosswalk synth gdfCols synthCols r = (r, false))
    ∧ (∀ p, r.vals primaryCol = none →
        geoid_2010 crosswalk r = some p →
        p ∈ synthIndex synth →
        ∀ c, c ∈ score_cols synthCols → c ∈ gdfCols →
          ((fillRow crosswalk synth gdfCols synthCols r).1).vals c
            = md_latest_val synth p c) := by
  constructor
  · exact fillRow_of_present
  · intro p hnone hp hidx c hsc hgc
    simp [fillRow, hnone, hp, hidx, hsc, hgc]

/-- One-row crosswalk used for the imputation witnesses. -/
def cwFillW : List XwalkRow := [⟨"24001", "P1", some 10⟩]

/-- One-record metric series whose unit P1 has the primary metric 42. -/
def synthFillW : List SynthRow :=
  [⟨"P1", "Maryland", some 2020, fun c => if c == "kfr_pooled_pooled_mean" then some 42 else none⟩]

/-- Columns of the metric series in the witnesses. -/
def synthColsW : List String := ["GEOID", "year", "state_name", "kfr_pooled_pooled_mean"]

/-- Columns of the boundary frame in the witnesses. -/
def gdfColsW : List String := ["kfr_pooled_pooled_mean"]

/-- A boundary row that already has the primary metric. -/
def rPresentW : GdfRow :=
  ⟨"24001", fun c => if c == "kfr_pooled_pooled_mean" then some 1 else none⟩

/-- A boundary row with no metric values at all. -/
def rMissingW : GdfRow := ⟨"24001", fun _ => none⟩

theorem impute_all_or_nothing_witness :
    fillRow cwFillW synthFillW gdfColsW synthColsW rPresentW = (rPresentW, false)
    ∧ ((fillRow cwFillW synthFillW gdfColsW synthColsW rMissingW).1).vals primaryCol
        = md_latest_val synthFillW "P1" primaryCol :=
  ⟨(impute_all_or_nothing cwFillW synthFillW gdfColsW synthColsW rPresentW).1 (by decide),
   (impute_all_or_nothing cwFillW synthFillW gdfColsW synthColsW rMissingW).2
     "P1" rfl (by decide) (by decide) primaryCol (by decide) (by decide)⟩

/-- C6: on a boundary set in which every unit already has the primary
metric, the fill loop changes nothing and reports a filled count of zero. -/
theorem impute_idempotent (crosswalk : List XwalkRow) (synth : List SynthRow)
    (gdfCols synthCols : List String) (gdf : List GdfRow)
    (h : ∀ r ∈ gdf, (r.vals primaryCol).isSome = true) :
    imputed crosswalk synth gdfCols synthCols gdf = gdf
    ∧ filled_count crosswalk synth gdfCols synthCols gdf = 0 := by
  constructor
  · rw [imputed]
    have hmap : ∀ r ∈ gdf, (fillRow crosswalk synth gdfCols synthCols r).1 = r := by
      intro r hr
      rw [fillRow_of_present (h r hr)]
    calc gdf.map (fun r => (fillRow crosswalk synth gdfCols synthCols r).1)
        = gdf.map id := List.map_congr_left hmap
      _ = gdf := List.map_id gdf
  · rw [filled_count, List.countP_eq_zero]
    intro r hr
    rw [fillRow_of_present (h r hr)]
    simp

theorem impute_idempotent_witness :
    imputed cwFillW synthFillW gdfColsW synthColsW [rPresentW] = [rPresentW]
    ∧ filled_count cwFillW synthFillW gdfColsW synthColsW [rPresentW] = 0 :=
  impute_idempotent cwFillW synthFillW gdfColsW synthColsW [rPresentW]
    (by intro r hr; rw [List.mem_singleton.mp hr]; decide)

theorem fillRow_missing_balance (crosswalk : List XwalkRow) (synth : List SynthRow)
    (gdfCols synthCols : List String)
    (hp1 : primaryCol ∈ score_cols synthCols)
    (hp2 : primaryCol ∈ gdfCols)
    (hpar : ∀ p, p ∈ synthIndex synth →
      (md_latest_val synth p primaryCol).isSome = true)
    (r : GdfRow) :
    ((if (fillRow crosswalk synth gdfCols synthCols r).2 then 1 else 0)
      + (if (((fillRow crosswalk synth gdfCols synthCols r).1).vals primaryCol).isNone
          then 1 else 0) : Nat)
      = (if (r.vals primaryCol).isNone then 1 else 0) := by
  cases hm : r.vals primaryCol with
  | some v =>
    rw [fillRow_of_present (by rw [hm]; rfl)]
    simp [hm]
  | none =>
    cases hg : geoid_2010 crosswalk r with
    | none => simp [fillRow, hm, hg]
    | some p =>
      by_cases hc : p ∈ synthIndex synth
      · have hsome : md_latest_val synth p primaryCol ≠ none :=
          Option.isSome_iff_ne_none.mp (hpar p hc)
        simp [fillRow, hm, hg, hc, hp1, hp2, hsome]
      · simp [fillRow, hm, hg, hc]

theorem filled_plus_still_missing (crosswalk : List XwalkRow) (synth : List SynthRow)
    (gdfCols synthCols : List String)
    (hp1 : primaryCol ∈ score_cols synthCols)
    (hp2 : primaryCol ∈ gdfCols)
    (hpar : ∀ p, p ∈ synthIndex synth →
      (md_latest_val synth p primaryCol).isSome = true)
    (gdf : List GdfRow) :
    filled_count crosswalk synth gdfCols synthCols gdf
      + missingCount (imputed crosswalk synth gdfCols synthCols gdf)
      = missingCount gdf := by
  induction gdf with
  | nil => rfl
  | cons r t ih =>
    have hbal := fillRow_missing_balance crosswalk synth gdfCols synthCols hp1 hp2 hpar r
    simp only [filled_count, imputed, missingCount, List.map_cons, List.countP_cons] at *
    omega

/-- C5 amended: the coverage identity
`filled + still_missing + already_present = total` holds provided the
primary metric is among the imputable columns of both frames and every
parent row of the collapsed table carries a non-null primary metric; without
the latter a filled unit can remain missing (its parent's primary is NaN)
and the left-hand side exceeds the total, as the counterexample shows. -/
theorem coverage_invariant_amended (crosswalk : List XwalkRow) (synth : List SynthRow)
    (gdfCols synthCols : List String) (gdf : List GdfRow)
    (hp1 : primaryCol ∈ score_cols synthCols)
    (hp2 : primaryCol ∈ gdfCols)
    (hpar : ∀ p, p ∈ synthIndex synth →
      (md_latest_val synth p primaryCol).isSome = true) :
    filled_count crosswalk synth gdfCols synthCols gdf
      + missingCount (imputed crosswalk synth gdfCols synthCols gdf)
      + (gdf.length - missingCount gdf) = gdf.length := by
  have h1 := filled_plus_still_missing crosswalk synth gdfCols synthCols hp1 hp2 hpar gdf
  have h2 : missingCount gdf ≤ gdf.length := List.countP_le_length _
  omega

theorem coverage_invariant_amended_witness :
    filled_count cwFillW synthFillW gdfColsW synthColsW [rMissingW]
      + missingCount (imputed cwFillW synthFillW gdfColsW synthColsW [rMissingW])
      + ([rMissingW].length - missingCount [rMissingW]) = [rMissingW].length :=
  coverage_invariant_amended cwFillW synthFillW gdfColsW synthColsW [rMissingW]
    (by decide) (by decide) (by decide)

/-- Crosswalk for the coverage counterexample: tract 24009 maps to P9. -/
def cwCov : List XwalkRow := [⟨"24009", "P9", some 3⟩]

/-- Series whose only unit P9 has a NaN primary metric. -/
def synthCov : List SynthRow := [⟨"P9", "Maryland", some 2020, fun _ => none⟩]

/-- A single boundary row missing its primary metric. -/
def gdfCov : List GdfRow := [⟨"24009", fun _ => none⟩]

/-- Boundary columns for the coverage counterexample. -/
def gdfColsCov : List String := ["kfr_pooled_pooled_mean"]

/-- Series columns for the coverage counterexample. -/
def synthColsCov : List String := ["GEOID", "year", "state_name", "kfr_pooled_pooled_mean"]

/-- C5 counterexample: the row is counted as filled (its parent P9 is in the
collapsed table) but the copied primary value is NaN, so it is also still
missing: filled = 1, still_missing = 1, already_present = 0 on a one-row
frame, and 1 + 1 + 0 ≠ 1. -/
theorem coverage_invariant_cex :
    filled_count cwCov synthCov gdfColsCov synthColsCov gdfCov
      + missingCount (imputed cwCov synthCov gdfColsCov synthColsCov gdfCov)
      + (gdfCov.length - missingCount gdfCov) ≠ gdfCov.length := by
  decide

/-- The transient linkage column attached by the merge of line 88. -/
def linkageCol : String := "GEOID_2010"

/-- The boundary frame's columns after the left merge of lines 87-91. -/
def merged_cols (gdfCols : List String) : List String := gdfCols ++ [linkageCol]

/-- The columns after `gdf.drop(columns=['GEOID_2010'], errors='ignore')`
(line 126): the schema written to the output file at line 129. -/
def output_cols (gdfCols : List String) : List String :=
  (merged_cols gdfCols).filter (fun c => c != linkageCol)

/-- C9: the transient `GEOID_2010` linkage column is removed before the
final boundary set is written — it never occurs in the output schema — and
whenever the input schema does not itself contain a `GEOID_2010` column the
output schema equals the input schema exactly (input columns plus the
filled metric values, no linkage column). -/
theorem linkage_col_dropped (gdfCols : List String) :
    linkageCol ∉ output_cols gdfCols
    ∧ (linkageCol ∉ gdfCols → output_cols gdfCols = gdfCols) := by
  constructor
  · intro h
    rcases List.mem_filter.mp h with ⟨_, hne⟩
    simp at hne
  · intro h
    rw [output_cols, merged_cols, List.filter_append]
    have h1 : gdfCols.filter (fun c => c != linkageCol) = gdfCols := by
      rw [List.filter_eq_self]
      intro a ha
      simp
      intro hc
      exact absurd (hc ▸ ha) h
    have h2 : [linkageCol].filter (fun c => c != linkageCol) = [] := by simp
    rw [h1, h2, List.append_nil]

theorem linkage_col_dropped_witness :
    linkageCol ∉ output_cols ["GEOID", "kfr_pooled_pooled_mean"]
    ∧ output_cols ["GEOID", "kfr_pooled_pooled_mean"] = ["GEOID", "kfr_pooled_pooled_mean"] :=
  ⟨(linkage_col_dropped ["GEOID", "kfr_pooled_pooled_mean"]).1,
   (linkage_col_dropped ["GEOID", "kfr_pooled_pooled_mean"]).2 (by decide)⟩

/-- The rows one left point contributes to the spatial join: one row per
intersecting region, in the stable enumeration order of the region list, or
a single unmatched row (`none`) when it intersects no region. Geometry is
abstracted into the `inter` test. -/
def sjoinBlock (inter : P → Q → Bool) (counties : List Q) (n : Nat) (p : P) :
    List (Nat × P × Option Q) :=
  match counties.filter (fun q => inter p q) with
  | [] => [(n, p, none)]
  | qs => qs.map (fun q => (n, p, some q))

/-- The left spatial join `gpd.sjoin(pois, counties, how='left',
predicate='intersects')` of `augment_pois_with_county.py` line 35, with the
left rows enumerated from index `n`: every point keeps its left index and
contributes its block of matches. -/
def sjoinFrom (inter : P → Q → Bool) (n : Nat) (pois : List P) (counties : List Q) :
    List (Nat × P × Option Q) :=
  (pois.enumFrom n).flatMap (fun ip => sjoinBlock inter counties ip.1 ip.2)

/-- The joined frame with the usual 0-based left index. -/
def sjoin (inter : P → Q → Bool) (pois : List P) (counties : List Q) :
    List (Nat × P × Option Q) :=
  sjoinFrom inter 0 pois counties

/-- `joined[~joined.index.duplicated(keep='first')]` (line 39): keep each
left-index's first row, walking the frame top to bottom with the set of
indices already seen. -/
def dropDupIndex : List (Nat × P × Option Q) → List Nat → List (Nat × P × Option Q)
  | [], _ => []
  | x :: rest, seen =>
    if seen.contains x.1 then dropDupIndex rest seen
    else x :: dropDupIndex rest (x.1 :: seen)

/-- The whole per-layer pipeline of lines 35-46: spatial join, keep-first
deduplication by left index, and `county_name.fillna('')` — each output
point paired with its region label, `""` when unmatched. -/
def augment_layer (inter : P → Q → Bool) (label : Q → String)
    (pois : List P) (counties : List Q) : List (P × String) :=
  (dropDupIndex (sjoin inter pois counties) []).map
    (fun x => (x.2.1, match x.2.2 with | some q => label q | none => ""))

theorem dropDupIndex_append_seen {part rest : List (Nat × P × Option Q)} {seen : List Nat}
    (h : ∀ x ∈ part, x.1 ∈ seen) :
    dropDupIndex (part ++ rest) seen = dropDupIndex rest seen := by
  induction part with
  | nil => rfl
  | cons y t ih =>
    rw [List.cons_append, dropDupIndex,
        if_pos (List.elem_iff.mpr (h y (List.mem_cons_self y t)))]
    exact ih fun x hx => h x (List.mem_cons.mpr (Or.inr hx))

theorem sjoinFrom_cons (inter : P → Q → Bool) (n : Nat) (p : P) (ps : List P)
    (counties : List Q) :
    sjoinFrom inter n (p :: ps) counties =
      sjoinBlock inter counties n p ++ sjoinFrom inter (n + 1) ps counties := by
  rw [sjoinFrom, List.enumFrom_cons, List.flatMap_cons, sjoinFrom]

theorem dropDup_sjoinFrom (inter : P → Q → Bool) (counties : List Q) (pois : List P) :
    ∀ (n : Nat) (seen : List Nat), (∀ j ∈ seen, j < n) →
      dropDupIndex (sjoinFrom inter n pois counties) seen =
        (pois.enumFrom n).map
          (fun ip => (ip.1, ip.2, (counties.filter (fun q => inter ip.2 q)).head?)) := by
  induction pois with
  | nil => intro n seen _; rfl
  | cons p ps ih =>
    intro n seen hseen
    have hns : n ∉ seen := fun hm => absurd (hseen n hm) (Nat.lt_irrefl n)
    have hseen' : ∀ j ∈ (n :: seen), j < n + 1 := by
      intro j hj
      rcases List.mem_cons.mp hj with hj | hj
      · omega
      · exact Nat.lt_succ_of_lt (hseen j hj)
    rw [sjoinFrom_cons, List.enumFrom_cons, List.map_cons]
    cases hcf : counties.filter (fun q => inter p q) with
    | nil =>
      have hb : sjoinBlock inter counties n p = [(n, p, none)] := by
        unfold sjoinBlock
        rw [hcf]
      rw [hb, List.cons_append, List.nil_append, dropDupIndex, if_neg (by simp [hns]),
          ih (n + 1) (n :: seen) hseen']
      simp [hcf]
    | cons q qs =>
      have hb : sjoinBlock inter counties n p
          = (q :: qs).map (fun q' => (n, p, some q')) := by
        unfold sjoinBlock
        rw [hcf]
      have hpart : ∀ x ∈ qs.map (fun q' => ((n, p, some q') : Nat × P × Option Q)),
          x.1 ∈ (n :: seen) := by
        intro x hx
        rcases List.mem_map.mp hx with ⟨q', _, hq'⟩
        rw [← hq']
        exact List.mem_cons_self n seen
      rw [hb, List.map_cons, List.cons_append, dropDupIndex, if_neg (by simp [hns]),
          dropDupIndex_append_seen hpart, ih (n + 1) (n :: seen) hseen']
      simp [hcf]

theorem enumFrom_map_val (g : P → β) (pois : List P) :
    ∀ n : Nat, (pois.enumFrom n).map (fun ip => (ip.2, g ip.2)) =
      pois.map (fun p => (p, g p)) := by
  induction pois with
  | nil => intro n; rfl
  | cons p ps ih =>
    intro n
    rw [List.enumFrom_cons, List.map_cons, List.map_cons, ih (n + 1)]

/-- C4: every input point appears exactly once in the output of the spatial
containment join, whatever the number of regions it intersects: the output
is the input point list itself, each point labelled with the first region
(in the stable enumeration order of the region list) whose geometry
intersects it, or with the empty label when it intersects none — no error,
no dropped or duplicated points, and first match wins on multiple
intersections. -/
theorem sjoin_one_row_per_point (inter : P → Q → Bool) (label : Q → String)
    (pois : List P) (counties : List Q) :
    augment_layer inter label pois counties =
      pois.map (fun p => (p,
        match counties.find? (fun q => inter p q) with
        | some q => label q
        | none => "")) := by
  rw [augment_layer, sjoin, dropDup_sjoinFrom inter counties pois 0 [] (by intro j hj; cases hj),
      List.map_map]
  have hcomp :
      ((fun x : Nat × P × Option Q =>
          (x.2.1, match x.2.2 with | some q => label q | none => "")) ∘
        (fun ip : Nat × P =>
          (ip.1, ip.2, (counties.filter (fun q => inter ip.2 q)).head?)))
      = fun ip : Nat × P =>
          (ip.2, match (counties.filter (fun q => inter ip.2 q)).head? with
                 | some q => label q
                 | none => "") := rfl
  rw [hcomp]
  have hval := enumFrom_map_val
    (fun p => match (counties.filter (fun q => inter p q)).head? with
              | some q => label q
              | none => "") pois 0
  rw [hval]
  refine List.map_congr_left ?_
  intro p _
  rw [List.filter_head?]

/-- Outcome of one iteration of the POI loop of
`augment_pois_with_county.py`: a file is skipped when absent (lines 21-23),
saved with its feature count on success (lines 49-50), or reported failed
when anything inside the try block raises (lines 52-53). -/
inductive FileOutcome where
  | skipped
  | saved (featureCount : Nat)
  | failed (message : String)
  deriving DecidableEq

/-- One loop iteration: the existence check, then the try/except around the
whole read-join-write pipeline for that file, the pipeline modelled as an
`Except` value (`error` = an exception raised while processing the file). -/
def processFile (pathExists : String → Bool) (run : String → Except String Nat)
    (filename : String) : FileOutcome :=
  if pathExists filename then
    match run filename with
    | Except.ok n => FileOutcome.saved n
    | Except.error e => FileOutcome.failed e
  else FileOutcome.skipped

/-- The `for filename in poi_files` loop (lines 19-53): outcomes accumulate
left to right; the except clause turns an exception into a reported outcome
instead of aborting the iteration. -/
def augment_pois (pathExists : String → Bool) (run : String → Except String Nat)
    (poi_files : List String) : List FileOutcome :=
  poi_files.foldl (fun acc f => acc ++ [processFile pathExists run f]) []

theorem augment_pois_eq_map (pathExists : String → Bool)
    (run : String → Except String Nat) (poi_files : List String) :
    augment_pois pathExists run poi_files
      = poi_files.map (processFile pathExists run) := by
  suffices h : ∀ acc : List FileOutcome,
      poi_files.foldl (fun acc f => acc ++ [processFile pathExists run f]) acc
        = acc ++ poi_files.map (processFile pathExists run) by
    simpa [augment_pois] using h []
  induction poi_files with
  | nil => intro acc; simp
  | cons f t ih =>
    intro acc
    rw [List.foldl_cons, ih, List.map_cons]
    simp

/-- C8: a processing failure for one named point-feature collection is
confined to that collection: with collections `fs1 ++ f :: fs2` and `f`'s
pipeline raising error `e`, the run still produces exactly one outcome per
collection; `f`'s outcome records the error and every other collection's
outcome is exactly what processing it alone yields, so no single
collection's failure aborts the run. -/
theorem poi_failure_isolated (pathExists : String → Bool)
    (run : String → Except String Nat) (fs1 : List String) (f : String)
    (fs2 : List String) (e : String)
    (hex : pathExists f = true) (herr : run f = Except.error e) :
    augment_pois pathExists run (fs1 ++ f :: fs2)
      = fs1.map (processFile pathExists run)
        ++ FileOutcome.failed e :: fs2.map (processFile pathExists run) := by
  rw [augment_pois_eq_map, List.map_append, List.map_cons]
  simp [processFile, hex, herr]

/-- All POI files exist in the witness run. -/
def poiExistsW : String → Bool := fun _ => true

/-- Witness pipeline: reading `stores.geojson` raises, the rest succeed. -/
def poiRunW : String → Except String Nat :=
  fun s => if s == "stores.geojson" then Except.error "bad geometry" else Except.ok 3

theorem poi_failure_isolated_witness :
    augment_pois poiExistsW poiRunW
        (["hospitals.geojson"] ++ "stores.geojson" :: ["schools.geojson"])
      = ["hospitals.geojson"].map (processFile poiExistsW poiRunW)
        ++ FileOutcome.failed "bad geometry"
          :: ["schools.geojson"].map (processFile poiExistsW poiRunW) :=
  poi_failure_isolated poiExistsW poiRunW ["hospitals.geojson"] "stores.geojson"
    ["schools.geojson"] "bad geometry" rfl (by simp [poiRunW])

end SparkMap
